import Mathlib

/-!
Verification of the slopdrop session execution and versioned-output service.

The repository ships a reference Python client
(src/examples/web_api_client.py); the server-side core (capability-scoped
evaluator, pagination buffer, versioned history store) is specified in
spec.md and modelled here from that specification.  The client's request
construction and its top-level error handling are embedded directly from the
Python source.
-/

namespace Slopdrop

/-! ## Client embedding (from src/examples/web_api_client.py) -/

/-- Request body of POST api/eval as built by SlopdropClient.eval. -/
structure EvalRequest where
  code : String
  is_admin : Bool
deriving DecidableEq

/-- Request body built by SlopdropClient.eval when the caller passes the
admin flag explicitly. -/
def clientEvalBody (code : String) (adminFlag : Bool) : EvalRequest :=
  { code := code, is_admin := adminFlag }

/-- Request body built by SlopdropClient.eval when the caller omits the
admin flag; the Python parameter default is False. -/
def clientEvalDefaultBody (code : String) : EvalRequest :=
  clientEvalBody code false

/-- Outcome of the single call to main() in the client's top-level handler. -/
inductive MainOutcome where
  | success
  | connectionError
  | otherError (msg : String)
deriving DecidableEq

/-- Observable effect of the client process: exit code, stderr lines, and the
number of times main() was attempted. -/
structure ClientExit where
  exitCode : Nat
  stderrLines : List String
  attempts : Nat
deriving DecidableEq

/-- The three stderr lines printed on a connection error. -/
def connectionErrorLines : List String :=
  ["Error: Cannot connect to slopdrop server",
   "Make sure to start the server first:",
   "  ./target/release/slopdrop --web"]

/-- Top-level handler of the client script: main() is attempted once; a
connection error prints a diagnostic to stderr and exits with status 1; any
other exception prints its message and exits with status 1. -/
def runClientMain (outcome : MainOutcome) : ClientExit :=
  match outcome with
  | .success => { exitCode := 0, stderrLines := [], attempts := 1 }
  | .connectionError =>
    { exitCode := 1, stderrLines := connectionErrorLines, attempts := 1 }
  | .otherError msg =>
    { exitCode := 1, stderrLines := ["Error: " ++ msg], attempts := 1 }

/-! ## Capability-scoped evaluator (modelled from the spec) -/

/-- Modelled from the spec: the fixed admin denylist of state-mutating or
environment-affecting commands (procedure redefinition at privileged scope,
file and process access, server-control commands); the server-side evaluator
is not under src. -/
def adminDenylist : List String :=
  ["proc", "exec", "open", "file", "socket", "source", "cd", "exit"]

/-- Split a character list on a separator character; the result always has
one piece more than the number of separators. -/
def splitOnChar (sep : Char) : List Char → List (List Char)
  | [] => [[]]
  | c :: rest =>
    let r := splitOnChar sep rest
    if c = sep then [] :: r
    else
      match r with
      | [] => [[c]]
      | w :: ws => (c :: w) :: ws

/-- Whitespace used to separate words inside a statement. -/
def isBlankChar (c : Char) : Bool :=
  c = ' ' || c = '\t'

/-- First word of a statement: skip leading blanks, take until a blank. -/
def firstWord (cs : List Char) : List Char :=
  (cs.dropWhile isBlankChar).takeWhile (fun c => !isBlankChar c)

/-- Modelled from the spec: the command names occurring in a code string, the
first word of each statement, statements being separated by newlines and
semicolons. -/
def commandsOf (code : String) : List String :=
  ((splitOnChar '\n' code.data).flatMap (fun s => splitOnChar ';' s)).filterMap
    (fun stmt =>
      let w := firstWord stmt
      if w = [] then none else some (String.mk w))

/-- Tagged admit or deny decision of the capability gate. -/
inductive Decision where
  | allow
  | deny (reason : String)
deriving DecidableEq

/-- Modelled from the spec: the pure admit or deny predicate evaluated before
the interpreter call; without the admin flag, any command on the denylist is
denied with a descriptive reason. -/
def capabilityCheck (code : String) (isAdmin : Bool) : Decision :=
  if isAdmin then .allow
  else
    match (commandsOf code).find? (fun c => adminDenylist.contains c) with
    | some c => .deny ("permission denied: " ++ c ++ " requires admin")
    | none => .allow

/-- Outcome of one call to the opaque interpreter primitive: the produced
output lines together with the resulting session content, or a failure
message (syntax error, runtime error). -/
inductive InterpOutcome where
  | ok (output : List String) (newSession : String)
  | fail (msg : String)
deriving DecidableEq

/-- Result of one evaluation: output lines and an error flag. -/
structure EvaluationResult where
  output : List String
  isError : Bool
deriving DecidableEq

/-- Modelled from the spec: Evaluate(code, isAdmin) over an opaque
interpreter.  The denylist check runs first; a denial or an interpreter
failure is reported as data with isError true and the session unchanged; on
success the session is replaced by the interpreter's new session content. -/
def Evaluate (interp : String → String → InterpOutcome) (code : String)
    (isAdmin : Bool) (session : String) : EvaluationResult × String :=
  match capabilityCheck code isAdmin with
  | .deny reason => ({ output := [reason], isError := true }, session)
  | .allow =>
    match interp code session with
    | .ok out s2 => ({ output := out, isError := false }, s2)
    | .fail msg => ({ output := [msg], isError := true }, session)

/-! ## Pagination buffer and versioned history store (modelled from the spec) -/

/-- Server-side bookmark into one evaluation's buffered output. -/
structure PaginationCursor where
  allLines : List String
  nextOffset : Nat
  pageSize : Nat
deriving DecidableEq

/-- Immutable record of a state-affecting operation. -/
structure HistoryEntry where
  commitId : Nat
  author : String
  message : String
  snapshot : String
deriving DecidableEq

/-- The whole server state: session content, linear history, live cursor. -/
structure ServerState where
  session : String
  history : List HistoryEntry
  cursor : Option PaginationCursor
deriving DecidableEq

/-- Server state at startup: empty session, empty history, no cursor. -/
def initState : ServerState :=
  { session := "", history := [], cursor := none }

/-- Modelled from the spec: one page of a cursor, the slice of allLines from
nextOffset of length pageSize clipped to the available length; the cursor is
advanced by the page length and destroyed once exhausted. -/
def cursorNext (c : PaginationCursor) :
    (List String × Bool) × Option PaginationCursor :=
  let page := (c.allLines.drop c.nextOffset).take c.pageSize
  let newOff := c.nextOffset + page.length
  ((page, decide (newOff < c.allLines.length)),
    if newOff < c.allLines.length then some { c with nextOffset := newOff }
    else none)

/-- Requesting more output with no live cursor. -/
inductive PageError where
  | noActivePage
deriving DecidableEq

/-- Modelled from the spec: StartPage unconditionally replaces any existing
cursor by a fresh cursor over the new result and returns the first page. -/
def StartPage (r : EvaluationResult) (pageSize : Nat) (st : ServerState) :
    (List String × Bool) × ServerState :=
  let c : PaginationCursor :=
    { allLines := r.output, nextOffset := 0, pageSize := pageSize }
  let pm := cursorNext c
  (pm.1, { st with cursor := pm.2 })

/-- Modelled from the spec: NextPage fails with NoActivePageError when no
cursor exists, otherwise serves the next page and advances the cursor. -/
def NextPage (st : ServerState) :
    Except PageError ((List String × Bool) × ServerState) :=
  match st.cursor with
  | none => .error .noActivePage
  | some c =>
    let pm := cursorNext c
    .ok (pm.1, { st with cursor := pm.2 })

/-- Repeatedly call NextPage, collecting the returned pages, stopping on
NoActivePageError or when the fuel runs out. -/
def drainPages : Nat → ServerState → List (List String × Bool)
  | 0, _ => []
  | k + 1, st =>
    match NextPage st with
    | .error _ => []
    | .ok (pm, st2) => pm :: drainPages k st2

/-- All pages of one evaluation result: the first page returned by StartPage
followed by the pages returned by the subsequent NextPage calls. -/
def allPages (r : EvaluationResult) (p : Nat) (st : ServerState)
    (fuel : Nat) : List (List String × Bool) :=
  let x := StartPage r p st
  x.1 :: drainPages fuel x.2

/-- Author recorded on server-created commits. -/
def serverAuthor : String := "slopdrop"

/-- Modelled from the spec: Commit appends a new immutable entry whose
identifier is stable and collision-free across the linear history (here the
entry's index at creation time). -/
def commitEntry (h : List HistoryEntry) (msg snap : String) : HistoryEntry :=
  { commitId := h.length, author := serverAuthor, message := msg,
    snapshot := snap }

/-- Rollback to an identifier matching no entry. -/
inductive RollbackError where
  | unknownCommit
deriving DecidableEq

/-- Modelled from the spec: Rollback fails with UnknownCommitError when the
identifier matches no entry; on success it restores the session to the
entry's snapshot, appends a new entry recording the rollback, and
invalidates the cursor. -/
def Rollback (commitId : Nat) (st : ServerState) :
    Except RollbackError (HistoryEntry × ServerState) :=
  match st.history.find? (fun e => e.commitId == commitId) with
  | none => .error .unknownCommit
  | some e =>
    let entry :=
      commitEntry st.history ("rollback to " ++ toString commitId) e.snapshot
    .ok (entry,
      { session := e.snapshot, history := st.history ++ [entry],
        cursor := none })

/-- Modelled from the spec: Log returns the most recent limit entries,
newest first. -/
def Log (limit : Nat) (st : ServerState) : List HistoryEntry :=
  st.history.reverse.take limit

/-- Modelled from the spec: one evaluation request at the facade; the
evaluator's output is handed to the pagination buffer, and an evaluation that
mutates the session commits exactly one new history entry. -/
def applyEval (interp : String → String → InterpOutcome) (code : String)
    (isAdmin : Bool) (pageSize : Nat) (st : ServerState) : ServerState :=
  let rs := Evaluate interp code isAdmin st.session
  let hist :=
    if rs.2 = st.session then st.history
    else st.history ++ [commitEntry st.history code rs.2]
  (StartPage rs.1 pageSize { st with session := rs.2, history := hist }).2

/-- One inbound request to the server core. -/
inductive Op where
  | evalOp (code : String) (isAdmin : Bool) (pageSize : Nat)
  | rollbackOp (commitId : Nat)
  | moreOp

/-- One request applied to the server state; failing requests leave the
state unchanged. -/
def step (interp : String → String → InterpOutcome) (st : ServerState) :
    Op → ServerState
  | .evalOp code isAdmin p => applyEval interp code isAdmin p st
  | .rollbackOp cid =>
    match Rollback cid st with
    | .error _ => st
    | .ok x => x.2
  | .moreOp =>
    match NextPage st with
    | .error _ => st
    | .ok x => x.2

/-- Session content reconstructed by replaying the history up to the latest
entry: the latest snapshot, or the startup content when no entry exists. -/
def replayContent (init : String) (h : List HistoryEntry) : String :=
  match h.getLast? with
  | none => init
  | some e => e.snapshot

/-- The replay invariant: the session content equals the state reconstructed
from the history. -/
def Inv (init : String) (st : ServerState) : Prop :=
  st.session = replayContent init st.history

/-- Logical response of GET api/more. -/
structure ApiResponse where
  status : Nat
  output : List String
  moreAvailable : Bool
deriving DecidableEq

/-- Modelled from the spec: GET api/more answers an error status when no
active page exists, otherwise 200 with the next output page. -/
def apiMore (st : ServerState) : ApiResponse × ServerState :=
  match NextPage st with
  | .error _ => ({ status := 409, output := [], moreAvailable := false }, st)
  | .ok x => ({ status := 200, output := x.1.1, moreAvailable := x.1.2 }, x.2)

/-! ## Concrete states used in witnesses -/

/-- A concrete history entry. -/
def entryW : HistoryEntry :=
  { commitId := 0, author := "alice", message := "m", snapshot := "snap" }

/-- A concrete server state with one history entry and a live cursor,
satisfying the replay invariant for startup content "". -/
def stW : ServerState :=
  { session := "snap", history := [entryW],
    cursor := some { allLines := ["l1"], nextOffset := 0, pageSize := 5 } }

/-- The entry recording a rollback of stW to commit 0. -/
def entryW2 : HistoryEntry :=
  commitEntry [entryW] ("rollback to " ++ toString 0) "snap"

/-- The state after rolling stW back to commit 0. -/
def stW2 : ServerState :=
  { session := "snap", history := [entryW, entryW2], cursor := none }

/-- A concrete state whose cursor is one page away from exhaustion. -/
def stDrainW : ServerState :=
  { session := "", history := [],
    cursor := some { allLines := ["l1"], nextOffset := 0, pageSize := 2 } }

/-! ## Helper lemmas -/

/-- Unfolding lemma: the first component returned by cursorNext. -/
theorem cursorNext_fst_mk (L : List String) (off sz : Nat) :
    (cursorNext ⟨L, off, sz⟩).1 =
      ((L.drop off).take sz,
        decide (off + ((L.drop off).take sz).length < L.length)) := rfl

/-- Unfolding lemma: the advanced cursor returned by cursorNext. -/
theorem cursorNext_snd_mk (L : List String) (off sz : Nat) :
    (cursorNext ⟨L, off, sz⟩).2 =
      if off + ((L.drop off).take sz).length < L.length then
        some ⟨L, off + ((L.drop off).take sz).length, sz⟩
      else none := rfl

/-- NextPage on a state without cursor fails. -/
theorem nextPage_none (st : ServerState) (h : st.cursor = none) :
    NextPage st = .error .noActivePage := by
  unfold NextPage
  rw [h]

/-- NextPage on a state with a cursor serves the cursor's next page. -/
theorem nextPage_some (st : ServerState) (c : PaginationCursor)
    (h : st.cursor = some c) :
    NextPage st =
      .ok ((cursorNext c).1, { st with cursor := (cursorNext c).2 }) := by
  unfold NextPage
  rw [h]

/-- Draining a state without cursor yields no pages. -/
theorem drainPages_cursor_none (k : Nat) (st : ServerState)
    (h : st.cursor = none) : drainPages k st = [] := by
  cases k with
  | zero => rfl
  | succ k => unfold drainPages; rw [nextPage_none st h]

/-- Rollback to an identifier found in the history restores the matched
snapshot and appends the recording entry. -/
theorem rollback_eq_of_find (cid : Nat) (st : ServerState) (e0 : HistoryEntry)
    (hf : st.history.find? (fun x => x.commitId == cid) = some e0) :
    Rollback cid st =
      .ok (commitEntry st.history ("rollback to " ++ toString cid) e0.snapshot,
        { session := e0.snapshot,
          history := st.history ++
            [commitEntry st.history ("rollback to " ++ toString cid)
              e0.snapshot],
          cursor := none }) := by
  unfold Rollback
  rw [hf]

/-- Rollback to an identifier matching no entry fails. -/
theorem rollback_err_of_find (cid : Nat) (st : ServerState)
    (hf : st.history.find? (fun x => x.commitId == cid) = none) :
    Rollback cid st = .error .unknownCommit := by
  unfold Rollback
  rw [hf]

/-- Replaying a history extended by one entry yields that entry's snapshot. -/
theorem replayContent_append (init : String) (h : List HistoryEntry)
    (e : HistoryEntry) : replayContent init (h ++ [e]) = e.snapshot := by
  unfold replayContent
  rw [List.getLast?_concat]

/-- The session after an evaluation request is the evaluator's session. -/
theorem applyEval_session (interp : String → String → InterpOutcome)
    (code : String) (isAdmin : Bool) (p : Nat) (st : ServerState) :
    (applyEval interp code isAdmin p st).session =
      (Evaluate interp code isAdmin st.session).2 := rfl

/-- The history after an evaluation request: unchanged for a non-mutating
evaluation, extended by exactly one commit for a mutating one. -/
theorem applyEval_history (interp : String → String → InterpOutcome)
    (code : String) (isAdmin : Bool) (p : Nat) (st : ServerState) :
    (applyEval interp code isAdmin p st).history =
      if (Evaluate interp code isAdmin st.session).2 = st.session then
        st.history
      else
        st.history ++
          [commitEntry st.history code
            (Evaluate interp code isAdmin st.session).2] := rfl

/-! ## Theorems -/

/-- Claim C10: SlopdropClient.eval called without an explicit admin argument
sends is_admin false in the request body for every code string. -/
theorem client_eval_default_not_admin (code : String) :
    (clientEvalDefaultBody code).is_admin = false := rfl

/-- Claim C9: on a connection error the client reports the failure on stderr
and exits with status 1 after a single attempt, without retrying. -/
theorem client_connection_error_exit :
    (runClientMain .connectionError).exitCode = 1 ∧
    (runClientMain .connectionError).stderrLines ≠ [] ∧
    (runClientMain .connectionError).attempts = 1 := by
  refine ⟨rfl, ?_, rfl⟩
  simp [runClientMain, connectionErrorLines]

/-- Claim C1: code consisting only of denylisted commands, evaluated without
the admin flag, leaves the session unchanged and reports an error; the deny
decision is reached by the capability gate before the interpreter runs, and
the produced result does not depend on the interpreter or on the session. -/
theorem evaluate_denylisted_code (code : String)
    (hne : commandsOf code ≠ [])
    (hall : ∀ c ∈ commandsOf code, c ∈ adminDenylist) :
    ∀ interp session,
      (Evaluate interp code false session).2 = session ∧
      (Evaluate interp code false session).1.isError = true ∧
      (∃ reason, capabilityCheck code false = .deny reason) ∧
      ∀ interp2 session2,
        (Evaluate interp2 code false session2).1 =
          (Evaluate interp code false session).1 := by
  obtain ⟨c, cs, hcons⟩ := List.exists_cons_of_ne_nil hne
  have hc : c ∈ adminDenylist := hall c (by rw [hcons]; exact List.mem_cons_self c cs)
  have hfind :
      (commandsOf code).find? (fun x => adminDenylist.contains x) = some c := by
    rw [hcons]
    exact List.find?_cons_of_pos _ (by simpa using hc)
  have hchk :
      capabilityCheck code false =
        .deny ("permission denied: " ++ c ++ " requires admin") := by
    unfold capabilityCheck
    rw [if_neg (by simp), hfind]
  intro interp session
  refine ⟨?_, ?_, ⟨_, hchk⟩, ?_⟩
  · simp [Evaluate, hchk]
  · simp [Evaluate, hchk]
  · intro interp2 session2
    simp [Evaluate, hchk]

/-- Witness for claim C1 at the concrete denylisted program "exec ls". -/
theorem evaluate_denylisted_code_witness :
    (Evaluate (fun _ s => .ok [] s) "exec ls" false "sess").2 = "sess" ∧
    (Evaluate (fun _ s => .ok [] s) "exec ls" false "sess").1.isError = true := by
  have h := evaluate_denylisted_code "exec ls" (by decide) (by decide)
    (fun _ s => .ok [] s) "sess"
  exact ⟨h.1, h.2.1⟩

/-- Claim C3: Evaluate returns its verdict as data and never as an
exception: on every failing run, capability denial or interpreter failure,
the result carries isError true and a nonempty human-readable message. -/
theorem evaluate_reports_failures (interp : String → String → InterpOutcome)
    (code : String) (isAdmin : Bool) (session : String)
    (h : (∃ r, capabilityCheck code isAdmin = .deny r) ∨
         (∃ msg, interp code session = .fail msg)) :
    (Evaluate interp code isAdmin session).1.isError = true ∧
    (Evaluate interp code isAdmin session).1.output ≠ [] := by
  rcases h with ⟨r, hr⟩ | ⟨msg, hm⟩
  · simp [Evaluate, hr]
  · cases hcap : capabilityCheck code isAdmin with
    | deny reason => simp [Evaluate, hcap]
    | allow => simp [Evaluate, hcap, hm]

/-- Witness for claim C3 at a concrete interpreter that fails. -/
theorem evaluate_reports_failures_witness :
    (Evaluate (fun _ _ => .fail "syntax error") "set x" true "s0").1.isError
      = true ∧
    (Evaluate (fun _ _ => .fail "syntax error") "set x" true "s0").1.output
      ≠ [] :=
  evaluate_reports_failures (fun _ _ => .fail "syntax error") "set x" true "s0"
    (Or.inr ⟨"syntax error", rfl⟩)

/-- Claim C4: the history is append-only and linear: the replay invariant
holds at startup, every operation only extends the history (the old history
is a prefix of the new one), the invariant is preserved by every operation,
and a successful rollback appends exactly the new entry recording it. -/
theorem history_append_only (interp : String → String → InterpOutcome)
    (init : String) (st : ServerState) (op : Op) (hinv : Inv init st) :
    Inv "" initState ∧
    st.history <+: (step interp st op).history ∧
    Inv init (step interp st op) ∧
    ∀ cid e st2, Rollback cid st = .ok (e, st2) →
      st2.history = st.history ++ [e] := by
  have hrb : ∀ cid e st2, Rollback cid st = .ok (e, st2) →
      st2.history = st.history ++ [e] := by
    intro cid e st2 h
    cases hf : st.history.find? (fun x => x.commitId == cid) with
    | none =>
      rw [rollback_err_of_find cid st hf] at h
      exact Except.noConfusion h
    | some e0 =>
      rw [rollback_eq_of_find cid st e0 hf] at h
      injection h with h1
      injection h1 with he hst
      subst he
      subst hst
      rfl
  have hmain : st.history <+: (step interp st op).history ∧
      Inv init (step interp st op) := by
    cases op with
    | evalOp code isAdmin p =>
      show st.history <+: (applyEval interp code isAdmin p st).history ∧
        Inv init (applyEval interp code isAdmin p st)
      by_cases hmut : (Evaluate interp code isAdmin st.session).2 = st.session
      · constructor
        · rw [applyEval_history, if_pos hmut]
        · show (applyEval interp code isAdmin p st).session =
            replayContent init (applyEval interp code isAdmin p st).history
          rw [applyEval_session, applyEval_history, if_pos hmut, hmut]
          exact hinv
      · constructor
        · rw [applyEval_history, if_neg hmut]
          exact List.prefix_append _ _
        · show (applyEval interp code isAdmin p st).session =
            replayContent init (applyEval interp code isAdmin p st).history
          rw [applyEval_session, applyEval_history, if_neg hmut,
            replayContent_append]
          rfl
    | rollbackOp cid =>
      cases hf : st.history.find? (fun x => x.commitId == cid) with
      | none =>
        have hstep : step interp st (.rollbackOp cid) = st := by
          show (match Rollback cid st with
            | .error _ => st
            | .ok x => x.2) = st
          rw [rollback_err_of_find cid st hf]
        rw [hstep]
        exact ⟨List.prefix_rfl, hinv⟩
      | some e0 =>
        have hstep : step interp st (.rollbackOp cid) =
            { session := e0.snapshot,
              history := st.history ++
                [commitEntry st.history ("rollback to " ++ toString cid)
                  e0.snapshot],
              cursor := none } := by
          show (match Rollback cid st with
            | .error _ => st
            | .ok x => x.2) = _
          rw [rollback_eq_of_find cid st e0 hf]
        rw [hstep]
        constructor
        · exact List.prefix_append _ _
        · show e0.snapshot = replayContent init (st.history ++ _)
          rw [replayContent_append]
          rfl
    | moreOp =>
      cases hcur : st.cursor with
      | none =>
        have hstep : step interp st .moreOp = st := by
          show (match NextPage st with
            | .error _ => st
            | .ok x => x.2) = st
          rw [nextPage_none st hcur]
        rw [hstep]
        exact ⟨List.prefix_rfl, hinv⟩
      | some c =>
        have hstep : step interp st .moreOp =
            { st with cursor := (cursorNext c).2 } := by
          show (match NextPage st with
            | .error _ => st
            | .ok x => x.2) = _
          rw [nextPage_some st c hcur]
        rw [hstep]
        exact ⟨List.prefix_rfl, hinv⟩
  exact ⟨rfl, hmain.1, hmain.2, hrb⟩

/-- Witness for claim C4 at a concrete rollback request on stW. -/
theorem history_append_only_witness :
    stW.history <+:
      (step (fun _ s => .ok [] s) stW (.rollbackOp 0)).history :=
  (history_append_only (fun _ s => .ok [] s) "" stW (.rollbackOp 0) rfl).2.1

/-- A clipped slice of a list is an infix of the list. -/
theorem slice_isInfix (L : List String) (off sz : Nat) :
    (L.drop off).take sz <:+: L :=
  ⟨L.take off, (L.drop off).drop sz, by
    rw [List.append_assoc, List.take_append_drop, List.take_append_drop]⟩

/-- Every page drained from a state whose cursor, if any, ranges over the
lines L is an infix of L. -/
theorem drainPages_mem_isInfix (L : List String) :
    ∀ (k : Nat) (st : ServerState),
      (st.cursor = none ∨ ∃ off sz,
        st.cursor = some ⟨L, off, sz⟩) →
      ∀ page more, (page, more) ∈ drainPages k st → page <:+: L := by
  intro k
  induction k with
  | zero =>
    intro st _ page more hmem
    simp [drainPages] at hmem
  | succ k ih =>
    intro st hc page more hmem
    rcases hc with hnone | ⟨off, sz, hsome⟩
    · rw [drainPages_cursor_none _ st hnone] at hmem
      simp at hmem
    · have hnp := nextPage_some st _ hsome
      simp only [drainPages, hnp] at hmem
      rcases List.mem_cons.mp hmem with heq | htail
      · rw [cursorNext_fst_mk] at heq
        injection heq with hpage hmore
        rw [hpage]
        exact slice_isInfix L off sz
      · refine ih _ ?_ page more htail
        have hproj : ({ st with cursor := (cursorNext ⟨L, off, sz⟩).2 } :
            ServerState).cursor = (cursorNext ⟨L, off, sz⟩).2 := rfl
        rw [hproj, cursorNext_snd_mk]
        by_cases hlt : off + ((L.drop off).take sz).length < L.length
        · rw [if_pos hlt]
          right
          exact ⟨off + ((L.drop off).take sz).length, sz, rfl⟩
        · rw [if_neg hlt]
          left
          rfl

/-- Claim C5: state mutation invalidates the cursor: the first page returned
by StartPage and every page a later NextPage can return are taken from the
new result's lines only, and a successful Rollback destroys the cursor so
that an immediately following NextPage fails with NoActivePageError. -/
theorem mutation_invalidates_cursor (r : EvaluationResult) (p : Nat)
    (st : ServerState) :
    (StartPage r p st).1.1 <:+: r.output ∧
    (∀ k page more, (page, more) ∈ drainPages k (StartPage r p st).2 →
      page <:+: r.output) ∧
    ∀ cid e st2, Rollback cid st = .ok (e, st2) →
      st2.cursor = none ∧ NextPage st2 = .error .noActivePage := by
  refine ⟨?_, ?_, ?_⟩
  · show (cursorNext ⟨r.output, 0, p⟩).1.1 <:+: r.output
    rw [cursorNext_fst_mk]
    exact slice_isInfix r.output 0 p
  · intro k page more hmem
    refine drainPages_mem_isInfix r.output k _ ?_ page more hmem
    have hproj : (StartPage r p st).2.cursor =
        (cursorNext ⟨r.output, 0, p⟩).2 := rfl
    rw [hproj, cursorNext_snd_mk]
    by_cases hlt : 0 + ((r.output.drop 0).take p).length < r.output.length
    · rw [if_pos hlt]
      right
      exact ⟨0 + ((r.output.drop 0).take p).length, p, rfl⟩
    · rw [if_neg hlt]
      left
      rfl
  · intro cid e st2 h
    cases hf : st.history.find? (fun x => x.commitId == cid) with
    | none =>
      rw [rollback_err_of_find cid st hf] at h
      exact Except.noConfusion h
    | some e0 =>
      rw [rollback_eq_of_find cid st e0 hf] at h
      injection h with h1
      injection h1 with he hst
      subst hst
      exact ⟨rfl, rfl⟩

/-- Witness for claim C5: rolling the concrete state stW back to commit 0
destroys the cursor, so the following NextPage fails. -/
theorem mutation_invalidates_cursor_witness :
    NextPage stW2 = .error .noActivePage :=
  ((mutation_invalidates_cursor ⟨["l1"], false⟩ 5 stW).2.2 0 entryW2 stW2
    rfl).2

/-- Claim C6: rolling back twice to the same commit identifier yields
identical session content both times while appending one new history entry
per call: a no-op at the state level, not at the history level. -/
theorem rollback_idempotent (st : ServerState) (cid : Nat)
    (h : ∃ e ∈ st.history, e.commitId = cid) :
    ∃ e1 st1 e2 st2,
      Rollback cid st = .ok (e1, st1) ∧
      Rollback cid st1 = .ok (e2, st2) ∧
      st2.session = st1.session ∧
      st1.history.length = st.history.length + 1 ∧
      st2.history.length = st.history.length + 2 := by
  obtain ⟨e, hmem, hcid⟩ := h
  have hsome : (st.history.find? (fun x => x.commitId == cid)).isSome :=
    List.find?_isSome.mpr ⟨e, hmem, by simp [hcid]⟩
  obtain ⟨e0, hf⟩ := Option.isSome_iff_exists.mp hsome
  have h1 := rollback_eq_of_find cid st e0 hf
  have hf2 : ((st.history ++
        [commitEntry st.history ("rollback to " ++ toString cid)
          e0.snapshot]).find? (fun x => x.commitId == cid)) = some e0 := by
    rw [List.find?_append, hf]
    rfl
  exact ⟨_, _, _, _, h1, rollback_eq_of_find cid _ e0 hf2, rfl,
    by simp, by simp⟩

/-- Witness for claim C6 at the concrete state stW and commit 0. -/
theorem rollback_idempotent_witness :
    ∃ e1 st1 e2 st2,
      Rollback 0 stW = .ok (e1, st1) ∧
      Rollback 0 st1 = .ok (e2, st2) ∧
      st2.session = st1.session ∧
      st1.history.length = stW.history.length + 1 ∧
      st2.history.length = stW.history.length + 2 :=
  rollback_idempotent stW 0 ⟨entryW, by simp [stW], rfl⟩

/-- Claim C7: NextPage fails with NoActivePageError exactly when no cursor
exists; the startup state has no cursor; a page answered with moreAvailable
false destroys the cursor so the following NextPage fails; and GET api/more
answers status 200 exactly when a cursor exists. -/
theorem nextPage_noActivePage (st : ServerState) :
    (NextPage st = .error .noActivePage ↔ st.cursor = none) ∧
    initState.cursor = none ∧
    (∀ page st2, NextPage st = .ok ((page, false), st2) →
      NextPage st2 = .error .noActivePage) ∧
    ((apiMore st).1.status = 200 ↔ st.cursor ≠ none) := by
  cases hcur : st.cursor with
  | none =>
    have hnp := nextPage_none st hcur
    refine ⟨by simp [hnp], rfl, ?_, ?_⟩
    · intro page st2 h
      rw [hnp] at h
      exact Except.noConfusion h
    · simp [apiMore, hnp]
  | some c =>
    have hnp := nextPage_some st c hcur
    refine ⟨by simp [hnp], rfl, ?_, ?_⟩
    · intro page st2 h
      rw [hnp] at h
      injection h with h1
      injection h1 with hpm hst
      have hmore := congrArg Prod.snd hpm
      obtain ⟨L, off, sz⟩ := c
      rw [cursorNext_fst_mk] at hmore
      have hlt : ¬ (off + ((L.drop off).take sz).length < L.length) :=
        of_decide_eq_false hmore
      have hc2 : (cursorNext ⟨L, off, sz⟩).2 = none := by
        rw [cursorNext_snd_mk, if_neg hlt]
      subst hst
      refine nextPage_none _ ?_
      show (cursorNext ⟨L, off, sz⟩).2 = none
      exact hc2
    · simp [apiMore, hnp]

/-- Witness for claim C7: draining the last page of stDrainW destroys the
cursor, so the following NextPage fails. -/
theorem nextPage_noActivePage_witness :
    NextPage { session := "", history := [], cursor := none } =
      .error .noActivePage :=
  (nextPage_noActivePage stDrainW).2.2.1 ["l1"]
    { session := "", history := [], cursor := none } rfl

/-- Claim C8: with at least limit entries in the history and the replay
invariant holding, Log returns exactly limit entries ordered newest first
(index i is the i-th newest history entry), the entry at index 0 carries the
current session content, and a mutating evaluation appends exactly one
entry, so k mutating evaluations contribute k entries. -/
theorem log_newest_first (init : String) (limit : Nat) (st : ServerState)
    (hlen : limit ≤ st.history.length) (hpos : 0 < limit)
    (hinv : Inv init st) :
    (Log limit st).length = limit ∧
    (∀ i, i < limit →
      (Log limit st)[i]? = st.history[st.history.length - 1 - i]?) ∧
    (∃ e, (Log limit st).head? = some e ∧ e.snapshot = st.session) ∧
    ∀ interp code isAdmin p,
      (applyEval interp code isAdmin p st).session ≠ st.session →
      (applyEval interp code isAdmin p st).history.length =
        st.history.length + 1 := by
  have hidx : ∀ i, i < limit →
      (Log limit st)[i]? = st.history[st.history.length - 1 - i]? := by
    intro i hi
    unfold Log
    rw [List.getElem?_take, if_pos hi]
    exact List.getElem?_reverse (by omega)
  have hne : st.history ≠ [] := by
    intro h0
    rw [h0] at hlen
    simp at hlen
    omega
  obtain ⟨e, he⟩ :=
    Option.isSome_iff_exists.mp (List.getLast?_isSome.mpr hne)
  refine ⟨?_, hidx, ⟨e, ?_, ?_⟩, ?_⟩
  · unfold Log
    rw [List.length_take, List.length_reverse]
    exact Nat.min_eq_left hlen
  · rw [List.head?_eq_getElem?, hidx 0 hpos, Nat.sub_zero,
      ← List.getLast?_eq_getElem?]
    exact he
  · unfold Inv at hinv
    unfold replayContent at hinv
    rw [he] at hinv
    exact hinv.symm
  · intro interp code isAdmin p hchg
    rw [applyEval_session] at hchg
    rw [applyEval_history, if_neg hchg]
    simp

/-- Witness for claim C8 at the concrete state stW2 with limit 1. -/
theorem log_newest_first_witness :
    (Log 1 stW2).length = 1 :=
  (log_newest_first "" 1 stW2 (by simp [stW2]) (by decide) rfl).1

/-- Core pagination lemma: draining a cursor over lines from offset off with
positive page size p yields pages whose concatenation is the remaining
lines, whose count is the ceiling of the remaining length divided by p,
whose more-available flags are true on every page but the last, and whose
i-th page is the i-th clipped slice. -/
theorem drainPages_spec :
    ∀ (k off : Nat) (lines : List String) (p : Nat) (st : ServerState),
      st.cursor = some ⟨lines, off, p⟩ →
      0 < p → off < lines.length → lines.length - off ≤ k * p →
      ((drainPages k st).map Prod.fst).flatten = lines.drop off ∧
      (drainPages k st).length = (lines.length - off + p - 1) / p ∧
      (drainPages k st).map Prod.snd =
        List.replicate ((drainPages k st).length - 1) true ++ [false] ∧
      ∀ i, i < (drainPages k st).length →
        ((drainPages k st).map Prod.fst)[i]? =
          some ((lines.drop (off + i * p)).take p) := by
  intro k
  induction k with
  | zero =>
    intro off lines p st hc hp hoff hk
    exact absurd hoff (by omega)
  | succ k ih =>
    intro off lines p st hc hp hoff hk
    rw [Nat.succ_mul] at hk
    have hnp := nextPage_some st ⟨lines, off, p⟩ hc
    have hd : drainPages (k + 1) st =
        (cursorNext ⟨lines, off, p⟩).1 ::
          drainPages k { st with cursor := (cursorNext ⟨lines, off, p⟩).2 } := by
      simp only [drainPages, hnp]
    rw [hd, cursorNext_fst_mk, cursorNext_snd_mk]
    have hplen : ((lines.drop off).take p).length =
        min p (lines.length - off) := by
      rw [List.length_take, List.length_drop]
    by_cases hcase : off + p < lines.length
    · have hple : ((lines.drop off).take p).length = p := by
        rw [hplen]; omega
      have hlt : off + ((lines.drop off).take p).length < lines.length := by
        rw [hple]; exact hcase
      rw [if_pos hlt, hple, decide_eq_true hcase]
      have hk2 : lines.length - (off + p) ≤ k * p := by omega
      obtain ⟨ih1, ih2, ih3, ih4⟩ :=
        ih (off + p) lines p { st with cursor := some ⟨lines, off + p, p⟩ }
          rfl hp hcase hk2
      refine ⟨?_, ?_, ?_, ?_⟩
      · rw [List.map_cons, List.flatten_cons, ih1, ← List.drop_drop]
        exact List.take_append_drop p (lines.drop off)
      · rw [List.length_cons, ih2]
        have harr : lines.length - off + p - 1 =
            lines.length - (off + p) + p - 1 + p := by omega
        rw [harr, Nat.add_div_right _ hp]
      · rw [List.map_cons, List.length_cons, ih3, Nat.add_sub_cancel]
        have hm2 : 1 ≤ (drainPages k
            { st with cursor := some ⟨lines, off + p, p⟩ }).length := by
          rw [ih2]
          exact Nat.div_pos (by omega) hp
        conv_rhs =>
          rw [show (drainPages k
              { st with cursor := some ⟨lines, off + p, p⟩ }).length =
            (drainPages k
              { st with cursor := some ⟨lines, off + p, p⟩ }).length - 1 + 1
            from by omega]
          rw [List.replicate_succ]
        rfl
      · intro i hi
        rw [List.length_cons] at hi
        cases i with
        | zero =>
          rw [List.map_cons, List.getElem?_cons_zero, Nat.zero_mul,
            Nat.add_zero]
        | succ i =>
          rw [List.map_cons, List.getElem?_cons_succ, ih4 i (by omega)]
          rw [show off + p + i * p = off + (i + 1) * p from by
            rw [Nat.succ_mul]; omega]
    · have hple : ((lines.drop off).take p).length =
          lines.length - off := by
        rw [hplen]; omega
      have hlt : ¬ off + ((lines.drop off).take p).length < lines.length := by
        rw [hple]; omega
      rw [if_neg hlt, decide_eq_false hlt,
        drainPages_cursor_none k { st with cursor := none } rfl]
      refine ⟨?_, ?_, rfl, ?_⟩
      · simp only [List.map_cons, List.map_nil, List.flatten_cons,
          List.flatten_nil, List.append_nil]
        exact List.take_of_length_le (by rw [List.length_drop]; omega)
      · simp only [List.length_singleton]
        exact (Nat.div_eq_of_lt_le (by omega) (by omega)).symm
      · intro i hi
        simp only [List.length_singleton] at hi
        cases i with
        | zero =>
          rw [List.map_cons, List.getElem?_cons_zero, Nat.zero_mul,
            Nat.add_zero]
        | succ i => omega

/-- allPages equals draining a state whose cursor was freshly initialized
over the result's output. -/
theorem allPages_eq_drain (r : EvaluationResult) (p : Nat) (st : ServerState)
    (fuel : Nat) :
    allPages r p st fuel =
      drainPages (fuel + 1) { st with cursor := some ⟨r.output, 0, p⟩ } := by
  have hnp := nextPage_some { st with cursor := some ⟨r.output, 0, p⟩ }
    ⟨r.output, 0, p⟩ rfl
  simp only [drainPages, hnp]
  rfl

/-- Claim C2 (amended to results with at least one output line): StartPage
followed by the NextPage calls returns all n output lines across
ceil(n div p) page retrievals, the i-th page being the i-th clipped slice,
with moreAvailable true on every page except the last. -/
theorem pagination_drains_all (r : EvaluationResult) (p fuel : Nat)
    (st : ServerState) (hp : 0 < p) (hn : 0 < r.output.length)
    (hfuel : r.output.length ≤ (fuel + 1) * p) :
    ((allPages r p st fuel).map Prod.fst).flatten = r.output ∧
    (allPages r p st fuel).length = (r.output.length + p - 1) / p ∧
    (allPages r p st fuel).map Prod.snd =
      List.replicate ((allPages r p st fuel).length - 1) true ++ [false] ∧
    ∀ i, i < (allPages r p st fuel).length →
      ((allPages r p st fuel).map Prod.fst)[i]? =
        some ((r.output.drop (i * p)).take p) := by
  rw [allPages_eq_drain]
  obtain ⟨h1, h2, h3, h4⟩ := drainPages_spec (fuel + 1) 0 r.output p
    { st with cursor := some ⟨r.output, 0, p⟩ } rfl hp hn
    (by rw [Nat.sub_zero]; exact hfuel)
  refine ⟨?_, ?_, h3, ?_⟩
  · rw [h1, List.drop_zero]
  · rw [h2, Nat.sub_zero]
  · intro i hi
    rw [h4 i hi, Nat.zero_add]

/-- Witness for claim C2: three lines at page size two drain as a page of
two lines then a page of one line. -/
theorem pagination_drains_all_witness :
    ((allPages ⟨["a", "b", "c"], false⟩ 2 initState 1).map Prod.fst).flatten
      = ["a", "b", "c"] :=
  (pagination_drains_all ⟨["a", "b", "c"], false⟩ 2 1 initState (by decide)
    (by decide) (by decide)).1

/-- Claim C2 as originally stated fails at an empty result: StartPage on
zero output lines still returns one empty page, so one page retrieval
happens while the claimed count, the ceiling of 0 divided by the page size,
is zero. -/
theorem pagination_empty_output_counterexample :
    ¬ ((allPages ⟨[], false⟩ 1 initState 1).length = (0 + 1 - 1) / 1) := by
  decide

end Slopdrop
